import Mathlib

/-!
Shallow embedding of the AST core of `tw3-witcherscript-extension-langauge`
(`src/ast.rs`).  Rust `Rc<T>` / `Box<T>` indirections are erased (Lean values
are immutable trees), `Vec<T>` becomes `List T`, `Option<T>` becomes
`Option T`, `i32` literals become `Int`, and `String` stays `String`.
-/

namespace WitcherScript

/-- Embeds `enum ComparisonType` from `src/ast.rs`. -/
inductive ComparisonType where
  | Greater
  | GreaterEqual
  | Lower
  | LowerEqual
  | Equal
  | Different
  deriving DecidableEq, Repr

/-- Embeds `enum OperationCode` from `src/ast.rs`. -/
inductive OperationCode where
  | Mul
  | Div
  | Add
  | Sub
  | Comparison (t : ComparisonType)
  deriving DecidableEq, Repr

/-- Embeds `enum AssignmentType` from `src/ast.rs`. -/
inductive AssignmentType where
  | Equal
  | PlusEqual
  | MinusEqual
  | AsteriskEqual
  | SlashEqual
  deriving DecidableEq, Repr

/-- Embeds `enum EncapsulationType` from `src/ast.rs`. -/
inductive EncapsulationType where
  | Private
  | Public
  | Protected
  deriving DecidableEq, Repr

/-- Embeds `enum ClassType` from `src/ast.rs`. -/
inductive ClassType where
  | Class
  | StatemachineClass
  deriving DecidableEq, Repr

/-- Embeds `enum FunctionType` from `src/ast.rs`. -/
inductive FunctionType where
  | Function
  | Timer
  | Event
  deriving DecidableEq, Repr

mutual

/-- Embeds `enum Expression` from `src/ast.rs`.  The `FunctionCallParameters`
newtype wrapper around `Vec<Rc<Expression>>` is inlined as
`List Expression`. -/
inductive Expression where
  | Number (value : Int)
  | String (value : String)
  | Identifier (term : IdentifierTerm)
  | FunctionCall (accessor : IdentifierTerm)
      (generic_types : Option (List String))
      (parameters : List Expression)
  | Operation (left : Expression) (code : OperationCode) (right : Expression)
  | Error

/-- Embeds `struct IdentifierTerm` from `src/ast.rs`: one segment of a
possibly-nested, possibly-indexed identifier chain. -/
inductive IdentifierTerm where
  | mk (text : String) (indexing : Option Expression)
      (nesting : Option IdentifierTerm)

end

/-- Field accessor matching `IdentifierTerm::text`. -/
def IdentifierTerm.text : IdentifierTerm → String
  | .mk t _ _ => t

/-- Field accessor matching `IdentifierTerm::indexing`. -/
def IdentifierTerm.indexing : IdentifierTerm → Option Expression
  | .mk _ i _ => i

/-- Field accessor matching `IdentifierTerm::nesting`. -/
def IdentifierTerm.nesting : IdentifierTerm → Option IdentifierTerm
  | .mk _ _ n => n

/-- Embeds `struct TypeDeclaration` from `src/ast.rs`: a type name together with an
optional list of generic arguments (recursive). -/
inductive TypeDeclaration where
  | mk (type_name : String)
      (generic_type_assignment : Option (List TypeDeclaration))

/-- Field accessor matching `TypeDeclaration::type_name`. -/
def TypeDeclaration.type_name : TypeDeclaration → String
  | .mk n _ => n

/-- Field accessor matching `TypeDeclaration::generic_type_assignment`. -/
def TypeDeclaration.generic_type_assignment :
    TypeDeclaration → Option (List TypeDeclaration)
  | .mk _ g => g

/-- Embeds `struct TypedIdentifier` from `src/ast.rs`. -/
structure TypedIdentifier where
  name : String
  type_declaration : TypeDeclaration

/-- Embeds `struct VariableDeclaration` from `src/ast.rs`. -/
structure VariableDeclaration where
  declaration : TypedIdentifier
  following_expression : Option Expression

/-- Embeds `struct VariableAssignment` from `src/ast.rs`. -/
structure VariableAssignment where
  variable_name : IdentifierTerm
  assignment_type : AssignmentType
  following_expression : Expression

/-- Embeds `enum VariableDeclarationOrAssignment` from `src/ast.rs`. -/
inductive VariableDeclarationOrAssignment where
  | Declaration (decl : VariableDeclaration)
  | Assignement (assignment : VariableAssignment)

mutual

/-- Embeds `enum FunctionBodyStatement` from `src/ast.rs`. -/
inductive FunctionBodyStatement where
  | VariableDeclaration (decl : VariableDeclaration)
  | Expression (expr : Expression)
  | Return (expr : Expression)
  | Assignement (assignment : VariableAssignment)
  | IfStatement (stmt : IfStatement)
  | ForStatement (stmt : ForStatement)
  | WhileStatement (stmt : WhileStatement)
  | DoWhileStatement (stmt : DoWhileStatement)

/-- Embeds `enum IfStatement` from `src/ast.rs`: one link of an if/elif/else
cascade.  The root `If` carries its list of cascaded links; each `Else`
link carries an optional condition (`some` = elif, `none` = catch-all). -/
inductive IfStatement where
  | If (condition : Expression)
      (body_statements : List FunctionBodyStatement)
      (else_statements : List IfStatement)
  | Else (condition : Option Expression)
      (body_statements : List FunctionBodyStatement)

/-- Embeds `struct ForStatement` from `src/ast.rs`. -/
inductive ForStatement where
  | mk (initialization : Option VariableDeclarationOrAssignment)
      (condition : Expression)
      (iteration : VariableAssignment)
      (body_statements : List FunctionBodyStatement)

/-- Embeds `struct WhileStatement` from `src/ast.rs`. -/
inductive WhileStatement where
  | mk (condition : Expression)
      (body_statements : List FunctionBodyStatement)

/-- Embeds `struct DoWhileStatement` from `src/ast.rs`. -/
inductive DoWhileStatement where
  | mk (condition : Expression)
      (body_statements : List FunctionBodyStatement)

end

/-- Field accessor matching `ForStatement::initialization`. -/
def ForStatement.initialization :
    ForStatement → Option VariableDeclarationOrAssignment
  | .mk i _ _ _ => i

/-- Field accessor matching `ForStatement::condition`. -/
def ForStatement.condition : ForStatement → Expression
  | .mk _ c _ _ => c

/-- Field accessor matching `ForStatement::iteration`. -/
def ForStatement.iteration : ForStatement → VariableAssignment
  | .mk _ _ it _ => it

/-- Field accessor matching `ForStatement::body_statements`. -/
def ForStatement.body_statements :
    ForStatement → List FunctionBodyStatement
  | .mk _ _ _ b => b

/-- Embeds `struct FunctionDeclaration` from `src/ast.rs`. -/
structure FunctionDeclaration where
  function_type : FunctionType
  name : String
  generic_types : Option (List String)
  parameters : List TypedIdentifier
  type_declaration : Option TypeDeclaration
  body_statements : List FunctionBodyStatement
  is_latent : Bool

/-- Embeds `enum ClassBodyStatement` from `src/ast.rs`. -/
inductive ClassBodyStatement where
  | Method (encapsulation : Option EncapsulationType)
      (function_declaration : FunctionDeclaration)
  | Property (encapsulation : Option EncapsulationType)
      (property_declaration : VariableDeclaration)
  | DefaultValue (assignment : VariableAssignment)

/-- Embeds `struct ClassDeclaration` from `src/ast.rs`. -/
structure ClassDeclaration where
  class_type : ClassType
  name : String
  extended_class_name : Option String
  body_statements : List ClassBodyStatement

/-- Embeds `enum StructBodyStatement` from `src/ast.rs`. -/
inductive StructBodyStatement where
  | Property (decl : VariableDeclaration)
  | DefaultValue (assignment : VariableAssignment)

/-- Embeds `struct StructDeclaration` from `src/ast.rs`. -/
structure StructDeclaration where
  name : String
  body_statements : List StructBodyStatement

/-- Embeds `enum Statement` from `src/ast.rs`. -/
inductive Statement where
  | Expression (expr : Expression)
  | FunctionDeclaration (decl : FunctionDeclaration)
  | ClassDeclaration (decl : ClassDeclaration)
  | StructDeclaration (decl : StructDeclaration)

/-- Embeds `struct Program` from `src/ast.rs`. -/
structure Program where
  statements : List Statement

/-- Embeds `struct ProgramInformation` from `src/ast.rs`, with the
`RefCell<Vec<Rc<_>>>` cells modelled by their list contents. -/
structure ProgramInformation where
  generic_functions : List FunctionDeclaration
  generic_function_calls : List Expression

/-- Embeds `ProgramInformation::new` from `src/ast.rs`: both registry lists start
empty. -/
def ProgramInformation.new : ProgramInformation :=
  { generic_functions := [], generic_function_calls := [] }

/-! ## Cascade selection (if/elif/else) -/

/-- The condition carried by one cascade link: the root `If` always has one,
an `Else` link has an optional one (`none` = catch-all `else`). -/
def IfStatement.linkCondition : IfStatement → Option Expression
  | .If c _ _ => some c
  | .Else c _ => c

/-- The body carried by one cascade link. -/
def IfStatement.linkBody : IfStatement → List FunctionBodyStatement
  | .If _ b _ => b
  | .Else _ b => b

/-- Modelled from the spec: the repository's `src/` only declares the
`IfStatement` data type; the evaluation pass is an external collaborator.
Sequential scan of the cascaded links in source order under a reference
condition evaluation `rho`: the first link whose condition is `none`
(catch-all) or evaluates to true is selected; returns that link's body. -/
def selectLinksBody (rho : Expression → Bool) :
    List IfStatement → Option (List FunctionBodyStatement)
  | [] => none
  | l :: ls =>
    match l.linkCondition with
    | none => some l.linkBody
    | some c => if rho c then some l.linkBody else selectLinksBody rho ls

/-- Modelled from the spec: index (position in source order) of the selected
link among the cascaded links, scanning sequentially. -/
def selectLinksIdx (rho : Expression → Bool) :
    List IfStatement → Option Nat
  | [] => none
  | l :: ls =>
    match l.linkCondition with
    | none => some 0
    | some c =>
      if rho c then some 0 else (selectLinksIdx rho ls).map (· + 1)

/-- Modelled from the spec: evaluation of a whole `IfStatement::If` cascade —
try the root condition first, then the cascaded links in source order;
returns the selected body. -/
def selectCascadeBody (rho : Expression → Bool) (condition : Expression)
    (body : List FunctionBodyStatement) (links : List IfStatement) :
    Option (List FunctionBodyStatement) :=
  if rho condition then some body else selectLinksBody rho links

/-- Modelled from the spec: index of the selected branch of a cascade —
`0` is the root `If` body, `i + 1` is the `i`-th cascaded link. -/
def selectCascadeIdx (rho : Expression → Bool) (condition : Expression)
    (links : List IfStatement) : Option Nat :=
  if rho condition then some 0
  else (selectLinksIdx rho links).map (· + 1)

theorem selectLinksBody_append_of_false (rho : Expression → Bool)
    (pre rest : List IfStatement)
    (h : ∀ x ∈ pre, ∃ c, x.linkCondition = some c ∧ rho c = false) :
    selectLinksBody rho (pre ++ rest) = selectLinksBody rho rest := by
  induction pre with
  | nil => rfl
  | cons x pre ih =>
    obtain ⟨c, hc, hrc⟩ := h x (List.mem_cons_self _ _)
    simp only [List.cons_append, selectLinksBody, hc, hrc, if_false]
    exact ih fun y hy => h y (List.mem_cons_of_mem _ hy)

theorem selectLinksIdx_cons_none (rho : Expression → Bool)
    (l : IfStatement) (ls : List IfStatement)
    (hl : l.linkCondition = none) :
    selectLinksIdx rho (l :: ls) = some 0 := by
  simp [selectLinksIdx, hl]

theorem selectLinksIdx_cons_true (rho : Expression → Bool)
    (l : IfStatement) (ls : List IfStatement) (c : Expression)
    (hc : l.linkCondition = some c) (hrc : rho c = true) :
    selectLinksIdx rho (l :: ls) = some 0 := by
  simp [selectLinksIdx, hc, hrc]

theorem selectLinksIdx_cons_false (rho : Expression → Bool)
    (l : IfStatement) (ls : List IfStatement) (c : Expression)
    (hc : l.linkCondition = some c) (hrc : rho c = false) :
    selectLinksIdx rho (l :: ls) = (selectLinksIdx rho ls).map (· + 1) := by
  simp [selectLinksIdx, hc, hrc]

theorem selectLinksIdx_append_of_false (rho : Expression → Bool)
    (pre rest : List IfStatement)
    (h : ∀ x ∈ pre, ∃ c, x.linkCondition = some c ∧ rho c = false) :
    selectLinksIdx rho (pre ++ rest) =
      (selectLinksIdx rho rest).map (· + pre.length) := by
  induction pre with
  | nil => simp
  | cons x pre ih =>
    obtain ⟨c, hc, hrc⟩ := h x (List.mem_cons_self _ _)
    have ih' := ih fun y hy => h y (List.mem_cons_of_mem _ hy)
    rw [List.cons_append, selectLinksIdx_cons_false rho x _ c hc hrc, ih',
      Option.map_map]
    cases selectLinksIdx rho rest with
    | none => rfl
    | some i =>
      simp only [Option.map_some', Function.comp_apply, List.length_cons]
      congr 1

theorem selectLinksIdx_trailing_none (rho : Expression → Bool)
    (l : IfStatement) (hl : l.linkCondition = none)
    (pre : List IfStatement)
    (hsome : ∀ x ∈ pre, ∃ c, x.linkCondition = some c) :
    (selectLinksIdx rho (pre ++ [l]) = some pre.length ↔
      ∀ x ∈ pre, ∃ c, x.linkCondition = some c ∧ rho c = false) := by
  induction pre with
  | nil =>
    rw [List.nil_append, selectLinksIdx_cons_none rho l [] hl]
    simp
  | cons x pre ih =>
    obtain ⟨c, hc⟩ := hsome x (List.mem_cons_self _ _)
    have ih' := ih fun y hy => hsome y (List.mem_cons_of_mem _ hy)
    cases hrc : rho c with
    | true =>
      rw [List.cons_append, selectLinksIdx_cons_true rho x _ c hc hrc,
        List.length_cons]
      constructor
      · intro h
        have h0 := Option.some.inj h
        omega
      · intro h
        obtain ⟨c', hc', hrc'⟩ := h x (List.mem_cons_self _ _)
        rw [hc] at hc'
        cases hc'
        rw [hrc] at hrc'
        cases hrc'
    | false =>
      rw [List.cons_append, selectLinksIdx_cons_false rho x _ c hc hrc,
        List.length_cons]
      constructor
      · intro h
        obtain ⟨i, hi, hmap⟩ := Option.map_eq_some'.mp h
        have : i = pre.length := by omega
        subst this
        intro y hy
        rcases List.mem_cons.mp hy with hy | hy
        · subst hy
          exact ⟨c, hc, hrc⟩
        · exact (ih'.mp hi) y hy
      · intro h
        have hrw : selectLinksIdx rho (pre ++ [l]) = some pre.length :=
          ih'.mpr fun y hy => h y (List.mem_cons_of_mem _ hy)
        rw [hrw]
        rfl

/-- C1: cascade selection under a reference evaluation is strictly
sequential.  (1) If the root condition is true, the root body (index 0) is
selected regardless of the links.  (2) If the root condition is false, every
link before `l` carries a false condition, and `l` carries either no
condition or a true one, then `l`'s body is selected — at its source-order
index — and all the links after `l` are skipped (the result does not depend
on `post`).  (3) A trailing link with no condition is selected if and only
if it is reached with no earlier condition true. -/
theorem cascade_selection_sequential (rho : Expression → Bool)
    (cond : Expression) (body : List FunctionBodyStatement)
    (pre post : List IfStatement) (l : IfStatement) :
    (rho cond = true →
      selectCascadeBody rho cond body (pre ++ l :: post) = some body ∧
      selectCascadeIdx rho cond (pre ++ l :: post) = some 0) ∧
    (rho cond = false →
      (∀ x ∈ pre, ∃ c, x.linkCondition = some c ∧ rho c = false) →
      (l.linkCondition = none ∨
        ∃ c, l.linkCondition = some c ∧ rho c = true) →
      selectCascadeBody rho cond body (pre ++ l :: post) =
        some l.linkBody ∧
      selectCascadeIdx rho cond (pre ++ l :: post) =
        some (pre.length + 1)) ∧
    (l.linkCondition = none →
      (∀ x ∈ pre, ∃ c, x.linkCondition = some c) →
      (selectCascadeIdx rho cond (pre ++ [l]) = some (pre.length + 1) ↔
        rho cond = false ∧
          ∀ x ∈ pre, ∃ c, x.linkCondition = some c ∧ rho c = false)) := by
  refine ⟨?_, ?_, ?_⟩
  · intro h
    constructor
    · simp [selectCascadeBody, h]
    · simp [selectCascadeIdx, h]
  · intro hroot hpre hl
    have hbody : selectLinksBody rho (l :: post) = some l.linkBody := by
      rcases hl with hl | ⟨c, hc, hrc⟩
      · simp [selectLinksBody, hl]
      · simp [selectLinksBody, hc, hrc]
    have hidx : selectLinksIdx rho (l :: post) = some 0 := by
      rcases hl with hl | ⟨c, hc, hrc⟩
      · simp [selectLinksIdx, hl]
      · simp [selectLinksIdx, hc, hrc]
    constructor
    · rw [selectCascadeBody, hroot, if_neg (by simp),
        selectLinksBody_append_of_false rho pre _ hpre, hbody]
    · rw [selectCascadeIdx, hroot, if_neg (by simp),
        selectLinksIdx_append_of_false rho pre _ hpre, hidx]
      simp
  · intro hl hsome
    constructor
    · intro h
      rw [selectCascadeIdx] at h
      by_cases hroot : rho cond
      · rw [if_pos hroot] at h
        exact absurd (Option.some.inj h) (by omega)
      · rw [if_neg hroot] at h
        obtain ⟨i, hi, hmap⟩ := Option.map_eq_some'.mp h
        have : i = pre.length := by omega
        subst this
        exact ⟨Bool.eq_false_iff.mpr hroot,
          (selectLinksIdx_trailing_none rho l hl pre hsome).mp hi⟩
    · intro ⟨hroot, hfalse⟩
      rw [selectCascadeIdx, if_neg (by simp [hroot]),
        (selectLinksIdx_trailing_none rho l hl pre hsome).mpr hfalse]
      rfl

/-- Reference condition evaluation used by concrete witnesses: true exactly
on the literal `2`. -/
def evalIsTwo : Expression → Bool
  | .Number 2 => true
  | _ => false

/-- Witness for `cascade_selection_sequential`: a concrete cascade
`if (1) {A} else if (2) {B} else {C}` under the evaluation that makes only
condition `2` true selects the body `B`. -/
theorem cascade_selection_sequential_witness :
    selectCascadeBody evalIsTwo
        (Expression.Number 1)
        [FunctionBodyStatement.Return (Expression.Number 10)]
        [IfStatement.Else (some (Expression.Number 2))
            [FunctionBodyStatement.Return (Expression.Number 20)],
          IfStatement.Else none
            [FunctionBodyStatement.Return (Expression.Number 30)]] =
      some [FunctionBodyStatement.Return (Expression.Number 20)] := by
  have h := cascade_selection_sequential
    evalIsTwo (Expression.Number 1)
    [FunctionBodyStatement.Return (Expression.Number 10)]
    [] [IfStatement.Else none
        [FunctionBodyStatement.Return (Expression.Number 30)]]
    (IfStatement.Else (some (Expression.Number 2))
      [FunctionBodyStatement.Return (Expression.Number 20)])
  exact (h.2.1 rfl
    (by intro x hx; cases hx)
    (Or.inr ⟨Expression.Number 2, rfl, rfl⟩)).1

/-! ## C10: the else-list is not restricted to `Else` links -/

/-- A well-typed `IfStatement` whose else-list link is itself an `If`
carrying its own non-empty else-list. -/
def nonFlatCascade : IfStatement :=
  .If (.Number 1) []
    [.If (.Number 2) [] [.Else none []]]

/-- C10: the else-list of an `IfStatement::If` node holds arbitrary
`IfStatement` values: `nonFlatCascade` is well-typed, its single cascaded
link is itself an `If` node, and that inner `If` carries a non-empty
else-list — so the type alone does not enforce the flat cascade shape. -/
theorem else_list_admits_nested_if :
    ∃ cond body links, nonFlatCascade = IfStatement.If cond body links ∧
      ∃ cond2 body2 links2,
        links = [IfStatement.If cond2 body2 links2] ∧ links2 ≠ [] := by
  refine ⟨.Number 1, [], _, rfl, .Number 2, [], [.Else none []], rfl, ?_⟩
  simp

/-! ## C2: identifier chains -/

/-- Left-to-right traversal of an identifier chain's text segments,
recursing on `nesting`. -/
def IdentifierTerm.segments : IdentifierTerm → List String
  | .mk t _ none => [t]
  | .mk t _ (some n) => t :: n.segments

/-- Left-to-right traversal of the per-segment indexing expressions,
recursing on `nesting`. -/
def IdentifierTerm.segmentIndexings :
    IdentifierTerm → List (Option Expression)
  | .mk _ i none => [i]
  | .mk _ i (some n) => i :: n.segmentIndexings

/-- Build an identifier chain from segments given in left-to-right source
order, each with its optional indexing expression. -/
def buildChain :
    String → Option Expression → List (String × Option Expression) →
      IdentifierTerm
  | t, i, [] => .mk t i none
  | t, i, (t', i') :: rest => .mk t i (some (buildChain t' i' rest))

/-- The chain `a[0].b`: the indexing sits on segment `a`. -/
def chainAIdxB : IdentifierTerm :=
  .mk "a" (some (.Number 0)) (some (.mk "b" none none))

/-- The chain `a.b[0]`: the indexing sits on segment `b`. -/
def chainABIdx : IdentifierTerm :=
  .mk "a" none (some (.mk "b" (some (.Number 0)) none))

/-- C2: a three-segment identifier chain traverses in left-to-right source
order with each indexing expression attached to its own segment; the chain
`a.b[i].c` is exactly the nested value
`{text:a, nesting:{text:b, indexing:i, nesting:{text:c}}}`; and `a[0].b`
and `a.b[0]` are distinct values. -/
theorem identifier_chain_order (a b c : String)
    (ia ib ic : Option Expression) :
    (buildChain a ia [(b, ib), (c, ic)]).segments = [a, b, c] ∧
    (buildChain a ia [(b, ib), (c, ic)]).segmentIndexings = [ia, ib, ic] ∧
    (∀ i : Expression,
      buildChain a none [(b, some i), (c, none)] =
        IdentifierTerm.mk a none (some (IdentifierTerm.mk b (some i)
          (some (IdentifierTerm.mk c none none))))) ∧
    chainAIdxB ≠ chainABIdx := by
  refine ⟨rfl, rfl, fun i => rfl, ?_⟩
  intro h
  rw [chainAIdxB, chainABIdx] at h
  injection h with h1 h2 h3
  cases h2

/-! ## C3: generic type nesting -/

mutual

/-- Pre-order flattening of a `TypeDeclaration`: each node contributes its
type name paired with `none` (absent generic argument list) or `some n`
(generic argument list of length `n`), followed by the flattenings of its
generic arguments in order. -/
def TypeDeclaration.flatten :
    TypeDeclaration → List (String × Option Nat)
  | .mk n none => [(n, none)]
  | .mk n (some args) => (n, some args.length) :: flattenList args

/-- Pre-order flattening of a list of `TypeDeclaration`s. -/
def flattenList : List TypeDeclaration → List (String × Option Nat)
  | [] => []
  | t :: ts => t.flatten ++ flattenList ts

end

mutual

/-- Inverse of `TypeDeclaration.flatten`: parse one type declaration from
the front of a flattened list, returning it with the unread remainder.
The first argument is recursion fuel. -/
def unflattenF :
    Nat → List (String × Option Nat) →
      Option (TypeDeclaration × List (String × Option Nat))
  | 0, _ => none
  | _ + 1, [] => none
  | _ + 1, (n, none) :: rest => some (.mk n none, rest)
  | fuel + 1, (n, some k) :: rest =>
    match unflattenListF fuel k rest with
    | some (args, rest') => some (.mk n (some args), rest')
    | none => none

/-- Parse `k` consecutive type declarations from the front of a flattened
list.  The first argument is recursion fuel. -/
def unflattenListF :
    Nat → Nat → List (String × Option Nat) →
      Option (List TypeDeclaration × List (String × Option Nat))
  | _, 0, rest => some ([], rest)
  | 0, _ + 1, _ => none
  | fuel + 1, k + 1, rest =>
    match unflattenF fuel rest with
    | some (t, rest') =>
      match unflattenListF fuel k rest' with
      | some (ts, rest'') => some (t :: ts, rest'')
      | none => none
    | none => none

end

/-- The type `Map<string, Array<int>>`. -/
def mapStringArrayInt : TypeDeclaration :=
  .mk "Map"
    (some [.mk "string" none, .mk "Array" (some [.mk "int" none])])

theorem flatten_inj_aux : ∀ N : Nat,
    (∀ t₁ : TypeDeclaration, sizeOf t₁ ≤ N →
      ∀ (t₂ : TypeDeclaration) (r₁ r₂ : List (String × Option Nat)),
        t₁.flatten ++ r₁ = t₂.flatten ++ r₂ → t₁ = t₂ ∧ r₁ = r₂) ∧
    (∀ ts₁ : List TypeDeclaration, sizeOf ts₁ ≤ N →
      ∀ (ts₂ : List TypeDeclaration) (r₁ r₂ : List (String × Option Nat)),
        ts₁.length = ts₂.length →
        flattenList ts₁ ++ r₁ = flattenList ts₂ ++ r₂ →
        ts₁ = ts₂ ∧ r₁ = r₂) := by
  intro N
  induction N using Nat.strong_induction_on with
  | _ N IH =>
    constructor
    · rintro ⟨n₁, o₁⟩ hsize ⟨n₂, o₂⟩ r₁ r₂ heq
      cases o₁ with
      | none =>
        cases o₂ with
        | none =>
          simp only [TypeDeclaration.flatten, List.singleton_append] at heq
          injection heq with h1 h2
          injection h1 with hn _
          subst hn
          exact ⟨rfl, h2⟩
        | some args₂ =>
          simp only [TypeDeclaration.flatten, List.singleton_append,
            List.cons_append] at heq
          injection heq with h1 _
          injection h1 with _ ho
          exact absurd ho (by simp)
      | some args₁ =>
        cases o₂ with
        | none =>
          simp only [TypeDeclaration.flatten, List.singleton_append,
            List.cons_append] at heq
          injection heq with h1 _
          injection h1 with _ ho
          exact absurd ho (by simp)
        | some args₂ =>
          simp only [TypeDeclaration.flatten, List.cons_append] at heq
          injection heq with h1 h2
          injection h1 with hn hk
          subst hn
          have hlen : args₁.length = args₂.length := by
            injection hk
          have hlt : sizeOf args₁ < N := by
            have hs := hsize
            simp only [TypeDeclaration.mk.sizeOf_spec,
              Option.some.sizeOf_spec] at hs
            omega
          obtain ⟨hargs, hr⟩ :=
            (IH (sizeOf args₁) hlt).2 args₁ le_rfl args₂ r₁ r₂ hlen h2
          subst hargs
          exact ⟨rfl, hr⟩
    · intro ts₁ hsize ts₂ r₁ r₂ hlen heq
      cases ts₁ with
      | nil =>
        cases ts₂ with
        | nil => exact ⟨rfl, by simpa [flattenList] using heq⟩
        | cons t₂ ts₂' => simp at hlen
      | cons t ts =>
        cases ts₂ with
        | nil => simp at hlen
        | cons t₂ ts₂' =>
          simp only [flattenList, List.append_assoc] at heq
          have hlt : sizeOf t < N := by
            have hs := hsize
            simp only [List.cons.sizeOf_spec] at hs
            omega
          obtain ⟨ht, hrest⟩ := (IH (sizeOf t) hlt).1 t le_rfl t₂ _ _ heq
          subst ht
          have hlt2 : sizeOf ts < N := by
            have hs := hsize
            simp only [List.cons.sizeOf_spec] at hs
            omega
          have hlen' : ts.length = ts₂'.length := by simpa using hlen
          obtain ⟨hts, hr⟩ :=
            (IH (sizeOf ts) hlt2).2 ts le_rfl ts₂' r₁ r₂ hlen' hrest
          subst hts
          exact ⟨rfl, hr⟩

/-- C3: flattening a `TypeDeclaration` loses no nesting information (two
types with the same flattening are equal), the concrete type
`Map<string, Array<int>>` round-trips through flatten/unflatten exactly,
and a type with an absent generic argument list is a distinct value — with
a distinct flattening — from a type with an empty generic argument list. -/
theorem type_nesting_roundtrip :
    (∀ t₁ t₂ : TypeDeclaration, t₁.flatten = t₂.flatten → t₁ = t₂) ∧
    unflattenF 16 mapStringArrayInt.flatten = some (mapStringArrayInt, []) ∧
    TypeDeclaration.mk "int" none ≠ TypeDeclaration.mk "int" (some []) ∧
    (TypeDeclaration.mk "int" none).flatten ≠
      (TypeDeclaration.mk "int" (some [])).flatten := by
  refine ⟨?_, rfl, ?_, by decide⟩
  · intro t₁ t₂ h
    have h' : t₁.flatten ++ [] = t₂.flatten ++ [] := by rw [h]
    exact ((flatten_inj_aux (sizeOf t₁)).1 t₁ le_rfl t₂ [] [] h').1
  · intro h
    injection h with _ h2
    exact Option.noConfusion h2

/-- Witness for `type_nesting_roundtrip`: its injectivity component applied
at the concrete type `Map<string, Array<int>>`, the flatten-equality
hypothesis discharged by `rfl`. -/
theorem type_nesting_roundtrip_witness :
    mapStringArrayInt = mapStringArrayInt :=
  type_nesting_roundtrip.1 mapStringArrayInt mapStringArrayInt rfl

/-! ## C4: the registry is append-only -/

/-- Modelled from the spec: the construction pass (the parser, an external
collaborator not under `src/`) mutates the registry only through its two
append operations. -/
inductive RegistryOp where
  | AppendGenericFunction (decl : FunctionDeclaration)
  | AppendGenericFunctionCall (call : Expression)

/-- Modelled from the spec: one append step on the registry, pushing the
new element at the end of the corresponding list. -/
def applyRegistryOp (info : ProgramInformation) :
    RegistryOp → ProgramInformation
  | .AppendGenericFunction d =>
    { info with generic_functions := info.generic_functions ++ [d] }
  | .AppendGenericFunctionCall c =>
    { info with
      generic_function_calls := info.generic_function_calls ++ [c] }

/-- Run a sequence of registry operations in order. -/
def runRegistryOps (info : ProgramInformation) :
    List RegistryOp → ProgramInformation
  | [] => info
  | op :: ops => runRegistryOps (applyRegistryOp info op) ops

/-- C4: `ProgramInformation::new` returns a registry with both lists empty,
and across any sequence of append operations each list only grows at the
end: the previous contents — elements and their relative order — survive
as a prefix, so nothing is ever removed or reordered. -/
theorem registry_append_only (info : ProgramInformation)
    (ops : List RegistryOp) :
    ProgramInformation.new.generic_functions = [] ∧
    ProgramInformation.new.generic_function_calls = [] ∧
    (∃ grown, (runRegistryOps info ops).generic_functions =
      info.generic_functions ++ grown) ∧
    (∃ grown, (runRegistryOps info ops).generic_function_calls =
      info.generic_function_calls ++ grown) := by
  refine ⟨rfl, rfl, ?_⟩
  induction ops generalizing info with
  | nil => exact ⟨⟨[], by simp [runRegistryOps]⟩, ⟨[], by simp [runRegistryOps]⟩⟩
  | cons op ops ih =>
    obtain ⟨⟨g1, hg1⟩, ⟨g2, hg2⟩⟩ := ih (applyRegistryOp info op)
    cases op with
    | AppendGenericFunction d =>
      refine ⟨⟨[d] ++ g1, ?_⟩, ⟨g2, ?_⟩⟩
      · rw [runRegistryOps, hg1]
        simp [applyRegistryOp]
      · rw [runRegistryOps, hg2]
        simp [applyRegistryOp]
    | AppendGenericFunctionCall c =>
      refine ⟨⟨g1, ?_⟩, ⟨[c] ++ g2, ?_⟩⟩
      · rw [runRegistryOps, hg1]
        simp [applyRegistryOp]
      · rw [runRegistryOps, hg2]
        simp [applyRegistryOp]

/-! ## C5: re-entrant mutable access aborts -/

/-- Modelled from the spec: the interior-mutability discipline of the
registry's `RefCell` fields (the `RefCell` runtime lives in the Rust
standard library, not under `src/`): a cell value together with its
mutable-borrow flag. -/
structure MutCell (α : Type) where
  value : α
  mutably_borrowed : Bool

/-- Modelled from the spec: taking the mutable borrow aborts (an
`Except.error`) when the cell is already mutably borrowed. -/
def MutCell.tryBorrowMut {α : Type} (cell : MutCell α) :
    Except Unit (MutCell α) :=
  if cell.mutably_borrowed then Except.error ()
  else Except.ok { cell with mutably_borrowed := true }

/-- Modelled from the spec: one append step on a registry list held in a
cell — take the mutable borrow, push the element, release the borrow. -/
def MutCell.appendStep {α : Type} (cell : MutCell (List α)) (x : α) :
    Except Unit (MutCell (List α)) :=
  match cell.tryBorrowMut with
  | Except.ok borrowed =>
    Except.ok { value := borrowed.value ++ [x], mutably_borrowed := false }
  | Except.error e => Except.error e

/-- Modelled from the spec: the runtime shape of `ProgramInformation`,
each registry list in its own interior-mutable cell. -/
structure ProgramInformationCells where
  generic_functions : MutCell (List FunctionDeclaration)
  generic_function_calls : MutCell (List Expression)

/-- Modelled from the spec: appending a declaration to the
generic-functions list of the runtime registry. -/
def ProgramInformationCells.appendGenericFunction
    (info : ProgramInformationCells) (d : FunctionDeclaration) :
    Except Unit ProgramInformationCells :=
  match info.generic_functions.appendStep d with
  | Except.ok cell => Except.ok { info with generic_functions := cell }
  | Except.error e => Except.error e

/-- Modelled from the spec: appending a call expression to the
generic-function-calls list of the runtime registry. -/
def ProgramInformationCells.appendGenericFunctionCall
    (info : ProgramInformationCells) (c : Expression) :
    Except Unit ProgramInformationCells :=
  match info.generic_function_calls.appendStep c with
  | Except.ok cell => Except.ok { info with generic_function_calls := cell }
  | Except.error e => Except.error e

/-- C5: a second mutable access to the same registry list while an append
on it is still in progress (its cell's mutable borrow still held) aborts
immediately with an error — no completed double access, no silently
modified list — whereas an append on an un-borrowed list completes
normally. -/
theorem reentrant_mutable_access_aborts (info : ProgramInformationCells)
    (d : FunctionDeclaration) (c : Expression) :
    (info.generic_functions.mutably_borrowed = true →
      info.appendGenericFunction d = Except.error () ∧
      ∀ r, info.appendGenericFunction d ≠ Except.ok r) ∧
    (info.generic_function_calls.mutably_borrowed = true →
      info.appendGenericFunctionCall c = Except.error () ∧
      ∀ r, info.appendGenericFunctionCall c ≠ Except.ok r) ∧
    (info.generic_functions.mutably_borrowed = false →
      ∃ r, info.appendGenericFunction d = Except.ok r ∧
        r.generic_functions.value =
          info.generic_functions.value ++ [d]) := by
  refine ⟨?_, ?_, ?_⟩
  · intro h
    have habort : info.appendGenericFunction d = Except.error () := by
      rw [ProgramInformationCells.appendGenericFunction,
        MutCell.appendStep, MutCell.tryBorrowMut, h]
      rfl
    exact ⟨habort, fun r hr => by rw [habort] at hr; cases hr⟩
  · intro h
    have habort : info.appendGenericFunctionCall c = Except.error () := by
      rw [ProgramInformationCells.appendGenericFunctionCall,
        MutCell.appendStep, MutCell.tryBorrowMut, h]
      rfl
    exact ⟨habort, fun r hr => by rw [habort] at hr; cases hr⟩
  · intro h
    refine ⟨{ info with generic_functions :=
        { value := info.generic_functions.value ++ [d],
          mutably_borrowed := false } }, ?_, rfl⟩
    rw [ProgramInformationCells.appendGenericFunction,
      MutCell.appendStep, MutCell.tryBorrowMut, h]
    rfl

/-- Witness for `reentrant_mutable_access_aborts`: on a concrete registry
whose generic-functions cell is mid-borrow and whose call cell is free, the
re-entrant append aborts with an error. -/
theorem reentrant_mutable_access_aborts_witness :
    ({ generic_functions := { value := [], mutably_borrowed := true },
       generic_function_calls :=
         { value := [], mutably_borrowed := false } } :
        ProgramInformationCells).appendGenericFunction
      { function_type := .Function, name := "foo", generic_types := none,
        parameters := [], type_declaration := none, body_statements := [],
        is_latent := false } = Except.error () :=
  ((reentrant_mutable_access_aborts
    { generic_functions := { value := [], mutably_borrowed := true },
      generic_function_calls := { value := [], mutably_borrowed := false } }
    { function_type := .Function, name := "foo", generic_types := none,
      parameters := [], type_declaration := none, body_statements := [],
      is_latent := false }
    Expression.Error).1 rfl).1

/-! ## C6: the `Error` sentinel -/

/-- Runtime values of the reference evaluator. -/
inductive Value where
  | VNumber (n : Int)
  | VString (s : String)
  | VBool (b : Bool)

/-- Modelled from the spec: semantics of a binary operation on runtime
values (division is left unevaluated to stay total). -/
def applyOperation : Value → OperationCode → Value → Option Value
  | .VNumber a, .Add, .VNumber b => some (.VNumber (a + b))
  | .VNumber a, .Sub, .VNumber b => some (.VNumber (a - b))
  | .VNumber a, .Mul, .VNumber b => some (.VNumber (a * b))
  | .VNumber a, .Comparison .Greater, .VNumber b =>
    some (.VBool (decide (b < a)))
  | .VNumber a, .Comparison .GreaterEqual, .VNumber b =>
    some (.VBool (decide (b ≤ a)))
  | .VNumber a, .Comparison .Lower, .VNumber b =>
    some (.VBool (decide (a < b)))
  | .VNumber a, .Comparison .LowerEqual, .VNumber b =>
    some (.VBool (decide (a ≤ b)))
  | .VNumber a, .Comparison .Equal, .VNumber b =>
    some (.VBool (decide (a = b)))
  | .VNumber a, .Comparison .Different, .VNumber b =>
    some (.VBool (decide (a ≠ b)))
  | _, _, _ => none

/-- Modelled from the spec: the reference evaluator for expressions (the
evaluation passes are external collaborators).  Literals evaluate to their
values, operations evaluate recursively; identifiers and calls need an
environment and yield no value here; an `Expression.Error` node yields no
value — evaluation never produces the `Error` sentinel. -/
def evalExpression : Expression → Option Value
  | .Number n => some (.VNumber n)
  | .String s => some (.VString s)
  | .Identifier _ => none
  | .FunctionCall _ _ _ => none
  | .Operation l code r =>
    match evalExpression l, evalExpression r with
    | some a, some b => applyOperation a code b
    | _, _ => none
  | .Error => none

/-- Fold one binary operation whose operands are already folded: a
numeric operation on two number literals becomes a literal, anything
else — including any `Error` operand — is rebuilt unchanged. -/
def foldOp : Expression → OperationCode → Expression → Expression
  | .Number a, .Add, .Number b => .Number (a + b)
  | .Number a, .Sub, .Number b => .Number (a - b)
  | .Number a, .Mul, .Number b => .Number (a * b)
  | l, c, r => .Operation l c r

mutual

/-- Modelled from the spec: a generic constant-folding traversal (the
analysis passes are external collaborators).  It detects `Expression.Error`
and skips it — leaving it in place — while continuing over sibling
nodes. -/
def constantFold : Expression → Expression
  | .Number v => .Number v
  | .String s => .String s
  | .Identifier t => .Identifier t
  | .FunctionCall a g ps => .FunctionCall a g (constantFoldList ps)
  | .Operation l code r => foldOp (constantFold l) code (constantFold r)
  | .Error => .Error

/-- Constant folding over a parameter list, one sibling after another. -/
def constantFoldList : List Expression → List Expression
  | [] => []
  | e :: es => constantFold e :: constantFoldList es

end

mutual

/-- Modelled from the spec: the error-reporting walk — count every
`Expression.Error` node, continuing over every sibling instead of
aborting. -/
def countErrors : Expression → Nat
  | .Number _ => 0
  | .String _ => 0
  | .Identifier t => countErrorsTerm t
  | .FunctionCall a _ ps => countErrorsTerm a + countErrorsList ps
  | .Operation l _ r => countErrors l + countErrors r
  | .Error => 1

/-- Error count inside an identifier chain (its indexing expressions and
nested segments). -/
def countErrorsTerm : IdentifierTerm → Nat
  | .mk _ none none => 0
  | .mk _ (some i) none => countErrors i
  | .mk _ none (some n) => countErrorsTerm n
  | .mk _ (some i) (some n) => countErrors i + countErrorsTerm n

/-- Error count over a list of sibling expressions. -/
def countErrorsList : List Expression → Nat
  | [] => 0
  | e :: es => countErrors e + countErrorsList es

end

theorem countErrors_foldOp (l r : Expression) (c : OperationCode) :
    countErrors (foldOp l c r) = countErrors l + countErrors r := by
  cases l <;> cases c <;> cases r <;>
    simp [foldOp, countErrors]

theorem countErrors_constantFold_aux : ∀ N : Nat,
    (∀ e : Expression, sizeOf e ≤ N →
      countErrors (constantFold e) = countErrors e) ∧
    (∀ es : List Expression, sizeOf es ≤ N →
      countErrorsList (constantFoldList es) = countErrorsList es) := by
  intro N
  induction N using Nat.strong_induction_on with
  | _ N IH =>
    constructor
    · intro e hsize
      cases e with
      | Number v => rfl
      | String s => rfl
      | Identifier t => rfl
      | Error => rfl
      | FunctionCall a g ps =>
        have hlt : sizeOf ps < N := by
          have hs := hsize
          simp only [Expression.FunctionCall.sizeOf_spec] at hs
          omega
        rw [constantFold, countErrors, countErrors,
          (IH (sizeOf ps) hlt).2 ps le_rfl]
      | Operation l code r =>
        have hltl : sizeOf l < N := by
          have hs := hsize
          simp only [Expression.Operation.sizeOf_spec] at hs
          omega
        have hltr : sizeOf r < N := by
          have hs := hsize
          simp only [Expression.Operation.sizeOf_spec] at hs
          omega
        rw [constantFold, countErrors_foldOp, countErrors,
          (IH (sizeOf l) hltl).1 l le_rfl, (IH (sizeOf r) hltr).1 r le_rfl]
    · intro es hsize
      cases es with
      | nil => rfl
      | cons e es' =>
        have hlte : sizeOf e < N := by
          have hs := hsize
          simp only [List.cons.sizeOf_spec] at hs
          omega
        have hltes : sizeOf es' < N := by
          have hs := hsize
          simp only [List.cons.sizeOf_spec] at hs
          omega
        rw [constantFoldList, countErrorsList, countErrorsList,
          (IH (sizeOf e) hlte).1 e le_rfl,
          (IH (sizeOf es') hltes).2 es' le_rfl]

/-- C6: `Expression.Error` is the explicit parse-failure variant of
`Expression`; evaluation never produces a value from it; and the generic
traversals detect and skip/report it without aborting: constant folding
leaves every `Error` in place while still folding its siblings — in
general it neither creates nor loses `Error` nodes — and the reporting
walk counts the `Error` while having traversed the folded sibling too. -/
theorem error_sentinel_skipped :
    constantFold Expression.Error = Expression.Error ∧
    evalExpression Expression.Error = none ∧
    (∀ e : Expression, countErrors (constantFold e) = countErrors e) ∧
    constantFold (Expression.Operation
        (Expression.Operation (Expression.Number 1) OperationCode.Add
          (Expression.Number 2))
        OperationCode.Add Expression.Error) =
      Expression.Operation (Expression.Number 3) OperationCode.Add
        Expression.Error ∧
    constantFoldList [Expression.Error,
        Expression.Operation (Expression.Number 2) OperationCode.Mul
          (Expression.Number 3)] =
      [Expression.Error, Expression.Number 6] ∧
    countErrors (Expression.Operation
        (Expression.Operation (Expression.Number 1) OperationCode.Add
          (Expression.Number 2))
        OperationCode.Add Expression.Error) = 1 :=
  ⟨rfl, rfl,
    fun e => (countErrors_constantFold_aux (sizeOf e)).1 e le_rfl,
    rfl, rfl, rfl⟩

/-! ## C7: Statement exhaustiveness -/

/-- Holds (`true`) exactly on the `Expression` form of `Statement`. -/
def Statement.isExpressionForm : Statement → Bool
  | .Expression _ => true
  | _ => false

/-- Holds (`true`) exactly on the `FunctionDeclaration` form of `Statement`. -/
def Statement.isFunctionDeclarationForm : Statement → Bool
  | .FunctionDeclaration _ => true
  | _ => false

/-- Holds (`true`) exactly on the `ClassDeclaration` form of `Statement`. -/
def Statement.isClassDeclarationForm : Statement → Bool
  | .ClassDeclaration _ => true
  | _ => false

/-- Holds (`true`) exactly on the `StructDeclaration` form of `Statement`. -/
def Statement.isStructDeclarationForm : Statement → Bool
  | .StructDeclaration _ => true
  | _ => false

/-- An exhaustive visitor over `Statement`: one handler per declared
form. -/
def visitStatement {α : Type} (s : Statement)
    (onExpression : Expression → α)
    (onFunction : FunctionDeclaration → α)
    (onClass : ClassDeclaration → α)
    (onStruct : StructDeclaration → α) : α :=
  match s with
  | .Expression e => onExpression e
  | .FunctionDeclaration d => onFunction d
  | .ClassDeclaration d => onClass d
  | .StructDeclaration d => onStruct d

/-- C7: every `Statement` is exactly one of the four declared forms
(exactly one form predicate holds), and the exhaustive visitor always
lands in the handler of that form — it never reaches an unmatched case. -/
theorem statement_exactly_one_variant {α : Type} (s : Statement)
    (onExpression : Expression → α) (onFunction : FunctionDeclaration → α)
    (onClass : ClassDeclaration → α) (onStruct : StructDeclaration → α) :
    (s.isExpressionForm.toNat + s.isFunctionDeclarationForm.toNat +
      s.isClassDeclarationForm.toNat + s.isStructDeclarationForm.toNat
        = 1) ∧
    ((∃ e, s = Statement.Expression e ∧
        visitStatement s onExpression onFunction onClass onStruct =
          onExpression e) ∨
     (∃ d, s = Statement.FunctionDeclaration d ∧
        visitStatement s onExpression onFunction onClass onStruct =
          onFunction d) ∨
     (∃ d, s = Statement.ClassDeclaration d ∧
        visitStatement s onExpression onFunction onClass onStruct =
          onClass d) ∨
     (∃ d, s = Statement.StructDeclaration d ∧
        visitStatement s onExpression onFunction onClass onStruct =
          onStruct d)) := by
  cases s <;>
    simp [Statement.isExpressionForm, Statement.isFunctionDeclarationForm,
      Statement.isClassDeclarationForm, Statement.isStructDeclarationForm,
      visitStatement]

/-! ## C8: for-loop construction -/

/-- The for-loop `for (i: int = 0; i < 10; i += 1) { }`. -/
def forLoopExample : ForStatement :=
  .mk
    (some (.Declaration
      { declaration :=
          { name := "i", type_declaration := .mk "int" none },
        following_expression := some (.Number 0) }))
    (.Operation (.Identifier (.mk "i" none none))
      (.Comparison .Lower) (.Number 10))
    { variable_name := .mk "i" none none,
      assignment_type := .PlusEqual,
      following_expression := .Number 1 }
    []

/-- C8: the constructed for-loop's initialization is the declaration of
`i : int` initialized to `0`, its condition is a `Comparison(Lower)`
operation between the identifier `i` and the number `10`, its iteration is
an assignment to `i` with operator `PlusEqual` and right-hand side `1`,
and its body is empty. -/
theorem for_loop_construction :
    forLoopExample.initialization =
      some (VariableDeclarationOrAssignment.Declaration
        { declaration :=
            { name := "i", type_declaration := TypeDeclaration.mk "int" none },
          following_expression := some (Expression.Number 0) }) ∧
    forLoopExample.condition =
      Expression.Operation
        (Expression.Identifier (IdentifierTerm.mk "i" none none))
        (OperationCode.Comparison ComparisonType.Lower)
        (Expression.Number 10) ∧
    forLoopExample.iteration =
      { variable_name := IdentifierTerm.mk "i" none none,
        assignment_type := AssignmentType.PlusEqual,
        following_expression := Expression.Number 1 } ∧
    forLoopExample.body_statements = [] :=
  ⟨rfl, rfl, rfl, rfl⟩

/-! ## C9: the generic-call registry after construction -/

mutual

/-- Modelled from the spec: collection, during the single construction
pass (the parser is an external collaborator), of every call-site
expression carrying generic type arguments, in source order. -/
def collectCallsExpr : Expression → List Expression
  | .Number _ => []
  | .String _ => []
  | .Identifier t => collectCallsTerm t
  | .FunctionCall a g ps =>
    (match g with
     | some gs => [Expression.FunctionCall a (some gs) ps]
     | none => []) ++ (collectCallsTerm a ++ collectCallsExprList ps)
  | .Operation l _ r => collectCallsExpr l ++ collectCallsExpr r
  | .Error => []

/-- Generic call sites inside an identifier chain (indexing expressions
and nested segments). -/
def collectCallsTerm : IdentifierTerm → List Expression
  | .mk _ none none => []
  | .mk _ (some i) none => collectCallsExpr i
  | .mk _ none (some n) => collectCallsTerm n
  | .mk _ (some i) (some n) => collectCallsExpr i ++ collectCallsTerm n

/-- Generic call sites over a list of sibling expressions. -/
def collectCallsExprList : List Expression → List Expression
  | [] => []
  | e :: es => collectCallsExpr e ++ collectCallsExprList es

end

/-- Generic call sites in a variable declaration's initializer. -/
def callsOfVariableDeclaration (d : VariableDeclaration) :
    List Expression :=
  match d.following_expression with
  | some e => collectCallsExpr e
  | none => []

/-- Generic call sites in a variable assignment (target chain and
right-hand side). -/
def callsOfVariableAssignment (a : VariableAssignment) :
    List Expression :=
  collectCallsTerm a.variable_name ++ collectCallsExpr a.following_expression

mutual

/-- Generic call sites in one function-body statement. -/
def callsOfFnBody : FunctionBodyStatement → List Expression
  | .VariableDeclaration d => callsOfVariableDeclaration d
  | .Expression e => collectCallsExpr e
  | .Return e => collectCallsExpr e
  | .Assignement a => callsOfVariableAssignment a
  | .IfStatement s => callsOfIf s
  | .ForStatement s => callsOfFor s
  | .WhileStatement s => callsOfWhile s
  | .DoWhileStatement s => callsOfDoWhile s

/-- Generic call sites in an if/elif/else cascade. -/
def callsOfIf : IfStatement → List Expression
  | .If c body els =>
    collectCallsExpr c ++ callsOfFnBodyList body ++ callsOfIfList els
  | .Else (some c) body => collectCallsExpr c ++ callsOfFnBodyList body
  | .Else none body => callsOfFnBodyList body

/-- Generic call sites in a for-loop. -/
def callsOfFor : ForStatement → List Expression
  | .mk init c it body =>
    (match init with
     | some (.Declaration d) => callsOfVariableDeclaration d
     | some (.Assignement a) => callsOfVariableAssignment a
     | none => []) ++ collectCallsExpr c ++ callsOfVariableAssignment it ++
      callsOfFnBodyList body

/-- Generic call sites in a while-loop. -/
def callsOfWhile : WhileStatement → List Expression
  | .mk c body => collectCallsExpr c ++ callsOfFnBodyList body

/-- Generic call sites in a do-while-loop. -/
def callsOfDoWhile : DoWhileStatement → List Expression
  | .mk c body => collectCallsExpr c ++ callsOfFnBodyList body

/-- Generic call sites in a function body, in source order. -/
def callsOfFnBodyList : List FunctionBodyStatement → List Expression
  | [] => []
  | s :: rest => callsOfFnBody s ++ callsOfFnBodyList rest

/-- Generic call sites across the cascaded links of an if-statement. -/
def callsOfIfList : List IfStatement → List Expression
  | [] => []
  | l :: rest => callsOfIf l ++ callsOfIfList rest

end

/-- Generic call sites in a function declaration's body. -/
def callsOfFunctionDeclaration (f : FunctionDeclaration) :
    List Expression :=
  callsOfFnBodyList f.body_statements

/-- Generic call sites in one class member. -/
def callsOfClassBody : ClassBodyStatement → List Expression
  | .Method _ f => callsOfFunctionDeclaration f
  | .Property _ d => callsOfVariableDeclaration d
  | .DefaultValue a => callsOfVariableAssignment a

/-- Generic call sites across a class body. -/
def callsOfClassBodyList : List ClassBodyStatement → List Expression
  | [] => []
  | s :: rest => callsOfClassBody s ++ callsOfClassBodyList rest

/-- Generic call sites in one struct member. -/
def callsOfStructBody : StructBodyStatement → List Expression
  | .Property d => callsOfVariableDeclaration d
  | .DefaultValue a => callsOfVariableAssignment a

/-- Generic call sites across a struct body. -/
def callsOfStructBodyList : List StructBodyStatement → List Expression
  | [] => []
  | s :: rest => callsOfStructBody s ++ callsOfStructBodyList rest

/-- Modelled from the spec: the function declarations introducing generic
parameters found among the methods of a class body. -/
def genericFunctionsOfClassBodyList :
    List ClassBodyStatement → List FunctionDeclaration
  | [] => []
  | .Method _ f :: rest =>
    (if f.generic_types.isSome then [f] else []) ++
      genericFunctionsOfClassBodyList rest
  | _ :: rest => genericFunctionsOfClassBodyList rest

/-- Modelled from the spec: the function declarations introducing generic
parameters found in one top-level statement. -/
def genericFunctionsOfStatement : Statement → List FunctionDeclaration
  | .FunctionDeclaration d => if d.generic_types.isSome then [d] else []
  | .ClassDeclaration c => genericFunctionsOfClassBodyList c.body_statements
  | _ => []

/-- Generic call sites in one top-level statement. -/
def callsOfStatement : Statement → List Expression
  | .Expression e => collectCallsExpr e
  | .FunctionDeclaration d => callsOfFunctionDeclaration d
  | .ClassDeclaration c => callsOfClassBodyList c.body_statements
  | .StructDeclaration s => callsOfStructBodyList s.body_statements

/-- Modelled from the spec: the single construction pass over the
statement sequence, appending to the registry as it goes. -/
def collectStatements :
    List Statement → ProgramInformation → ProgramInformation
  | [], info => info
  | s :: rest, info =>
    collectStatements rest
      { generic_functions :=
          info.generic_functions ++ genericFunctionsOfStatement s,
        generic_function_calls :=
          info.generic_function_calls ++ callsOfStatement s }

/-- Modelled from the spec: registry contents after constructing a whole
program, starting from `ProgramInformation.new`. -/
def collectProgram (p : Program) : ProgramInformation :=
  collectStatements p.statements ProgramInformation.new

/-- The generic function `foo<T>(x: T)` with an empty body. -/
def fooDecl : FunctionDeclaration :=
  { function_type := .Function, name := "foo",
    generic_types := some ["T"],
    parameters := [{ name := "x", type_declaration := .mk "T" none }],
    type_declaration := none, body_statements := [], is_latent := false }

/-- The call `foo<int>(5)`. -/
def fooCall : Expression :=
  .FunctionCall (.mk "foo" none none) (some ["int"]) [.Number 5]

/-- A program defining `foo<T>` and containing exactly one call
`foo<int>(5)`. -/
def genericFooProgram : Program :=
  { statements := [.FunctionDeclaration fooDecl, .Expression fooCall] }

/-- C9: after constructing `genericFooProgram`, the registry's
declarations list is exactly the one entry `foo` (which has exactly one
type parameter) and its call-sites list is exactly the one `FunctionCall`
whose generic-type argument list is `["int"]`. -/
theorem generic_call_registry_exact :
    (collectProgram genericFooProgram).generic_functions = [fooDecl] ∧
    fooDecl.name = "foo" ∧
    (fooDecl.generic_types.map List.length) = some 1 ∧
    (collectProgram genericFooProgram).generic_function_calls = [fooCall] ∧
    (∃ accessor params,
      fooCall = Expression.FunctionCall accessor (some ["int"]) params) :=
  ⟨rfl, rfl, rfl, rfl, ⟨IdentifierTerm.mk "foo" none none,
    [Expression.Number 5], rfl⟩⟩

end WitcherScript
